import Mathlib

/-!
Shallow embedding of the Wikipedia crawler in `app/services/parser.py`
(class `WikipediaParser`) and the result handling of the `/parse/` endpoint
in `app/main.py`, together with proofs of the behavioural properties stated
in the design document.

Modelling conventions:
* `fetch_page` (aiohttp GET returning the HTML text or `None`) composed with
  BeautifulSoup parsing is modelled as an oracle `fetch : String → Option Page`,
  where `Page` records exactly the pieces of the soup the parser reads:
  the result of `soup.find("h1", {"id": "firstHeading"})` and of
  `soup.find("div", {"id": "mw-content-text"})`, each `none` when absent.
* Python's `set()` has no specified iteration order (string hashing is
  randomised per process), so `wiki_links = set(); ...; list(wiki_links)` is
  modelled by an enumeration oracle `enum : List String → List String` applied
  to the list of accepted URLs in document order (duplicates included); an
  admissible oracle returns the distinct elements, each once, in some order —
  the predicate `EnumSpec` (`(enum l).Perm l.dedup`) captures exactly that.
* The mutable instance field `self.visited_urls` is threaded explicitly as a
  `List String` state (only membership and insertion are used).
* An `AttributeError` raised by `.text` / `.find_all` on `None` is modelled by
  the `Except` error channel, which propagates through the recursion exactly
  as in Python, where `parse_article` has no try/except.
* Python's `\d` is modelled as an ASCII decimal digit (`Char.isDigit`), the
  only kind occurring in footnote markers.
-/

namespace WikiParser

/-- The main content container as the parser reads it: the text of each `<p>`
element (in document order) and the `href` of each `<a href=...>` element
(in document order). -/
structure ContentDiv where
  paragraphs : List String
  links : List String
deriving DecidableEq, Repr

/-- A fetched-and-soup-parsed page: `title` is the `.text` of
`soup.find("h1", {"id": "firstHeading"})` when that element exists, and
`content` is `soup.find("div", {"id": "mw-content-text"})` when it exists. -/
structure Page where
  title : Option String
  content : Option ContentDiv
deriving DecidableEq, Repr

/-- The only exception `parse_article` itself can raise in the modelled code:
`AttributeError` from calling `.text` or `.find_all` on a `None` returned by
`soup.find`. -/
inductive PyErr where
  | attributeError : PyErr
deriving DecidableEq, Repr

/-- The node `article_data` built by `parse_article`:
`{"url": ..., "title": ..., "content": ..., "level": ..., "children": [...]}`. -/
inductive Article where
  | mk (url title content : String) (level : Nat) (children : List Article)

/-- The `url` field of an article node. -/
def Article.url : Article → String
  | .mk u _ _ _ _ => u

/-- The `title` field of an article node. -/
def Article.title : Article → String
  | .mk _ t _ _ _ => t

/-- The `content` field of an article node. -/
def Article.content : Article → String
  | .mk _ _ c _ _ => c

/-- The `level` field of an article node. -/
def Article.level : Article → Nat
  | .mk _ _ _ l _ => l

/-- The `children` field of an article node. -/
def Article.children : Article → List Article
  | .mk _ _ _ _ cs => cs

mutual
/-- All URLs in an article tree, root first, depth-first. -/
def Article.urls : Article → List String
  | .mk u _ _ _ cs => u :: urlsList cs

/-- All URLs in a forest of article trees. -/
def urlsList : List Article → List String
  | [] => []
  | a :: as => Article.urls a ++ urlsList as
end

/-- `Article.All P a`: every node of the tree `a` satisfies `P`. -/
inductive Article.All (P : Article → Prop) : Article → Prop where
  | node (a : Article) (h : P a) (hc : ∀ c ∈ a.children, Article.All P c) :
      Article.All P a

/-- `s.startswith(pre)`, computed on the underlying characters. -/
def strStartsWith (s pre : String) : Bool :=
  pre.data.isPrefixOf s.data

/-- `c in s` for a single character `c`, computed on the underlying
characters. -/
def strContainsChar (s : String) (c : Char) : Bool :=
  s.data.contains c

/-- `href.startswith("/wiki/") and ":" not in href`
(line 88 of `parser.py`): keep only links to other articles, excluding
service pages. -/
def linkFilter (href : String) : Bool :=
  strStartsWith href "/wiki/" && !(strContainsChar href ':')

/-- The authority component of a URL suffix: characters up to the next `/`. -/
def takeAuthority : List Char → List Char
  | [] => []
  | c :: rest => if c = '/' then [] else c :: takeAuthority rest

/-- The `scheme://authority` part of an absolute URL: everything up to and
including `://`, then the authority up to the next `/`. -/
def schemeAuthority : List Char → List Char
  | ':' :: '/' :: '/' :: rest => ':' :: '/' :: '/' :: takeAuthority rest
  | c :: rest => c :: schemeAuthority rest
  | [] => []

/-- `urllib.parse.urljoin(base, href)` for the only shape of `href` the code
ever joins: an absolute path reference (the link filter guarantees the href
starts with `/wiki/`), which per RFC 3986 replaces the base's path: the result
is the base's `scheme://authority` followed by the href.  Hrefs that are not
absolute paths never reach `urljoin` in this program and are returned as-is. -/
def urljoin (base href : String) : String :=
  if strStartsWith href "/" then String.mk (schemeAuthority base.data) ++ href
  else href

/-- Length of a match of the regex fragment `\d*\]` at the head of the list
(zero or more digits, then the closing bracket), or `none` when no such match
exists.  Digits and `]` are disjoint, so the greedy match of `re` is the only
one. -/
def digitsThenBracket : List Char → Option Nat
  | [] => none
  | c :: rest =>
    if c = ']' then some 1
    else if c.isDigit then (digitsThenBracket rest).map (· + 1)
    else none

/-- One left-to-right pass of `re.sub(r'\[\d+\]', '', ·)` over the characters:
at each position, if `[` followed by one or more digits and `]` matches,
the match is dropped and scanning resumes after it; otherwise the character is
kept and scanning moves one position.  The extra `fuel` argument makes the
recursion structural; every match consumes at least one character, so
`fuel = l.length` never runs out. -/
def stripGo : Nat → List Char → List Char
  | 0, l => l
  | _ + 1, [] => []
  | fuel + 1, c :: rest =>
    if c = '[' then
      match rest with
      | [] => [c]
      | d :: rest2 =>
        if d.isDigit then
          match digitsThenBracket rest2 with
          | some n => stripGo fuel (rest2.drop n)
          | none => c :: stripGo fuel rest
        else c :: stripGo fuel rest
    else c :: stripGo fuel rest

/-- `re.sub(r'\[\d+\]', '', content)` (line 69 of `parser.py`): remove every
bracketed numeric footnote marker. -/
def stripCitations (s : String) : String :=
  String.mk (stripGo s.data.length s.data)

/-- Python `str.isspace` for the whitespace characters relevant here (ASCII
whitespace; this is what `str.strip()` removes from paragraph text). -/
def pyIsSpace (c : Char) : Bool :=
  c = ' ' || c = '\t' || c = '\n' || c = '\r' || c = '\x0b' || c = '\x0c'

/-- Truthiness of `p.text.strip()` in the comprehension
`[p.text for p in paragraphs if p.text.strip()]` (line 66): the paragraph
survives iff something other than whitespace remains after stripping, i.e. iff
it contains a non-whitespace character. -/
def pyStripTruthy (p : String) : Bool :=
  p.data.any (fun c => !(pyIsSpace c))

/-- `True` when, right after an opening `[`, the rest of the regex `\[\d+\]`
matches: one or more digits then `]`. -/
def headMarker : List Char → Bool
  | [] => false
  | d :: rest2 => d.isDigit && (digitsThenBracket rest2).isSome

/-- `True` when the regex `\[\d+\]` matches somewhere in the list, i.e. when
`re.sub` would remove something. -/
def hasMarker : List Char → Bool
  | [] => false
  | c :: rest => ((c = '[') && headMarker rest) || hasMarker rest

/-- An admissible model of Python `list(set(...))`: the oracle returns exactly
the distinct elements of the inserted list, each once, in some order.  CPython
guarantees nothing more (string hashes are randomised per process). -/
def EnumSpec (enum : List String → List String) : Prop :=
  ∀ l : List String, (enum l).Perm l.dedup

/-- The body of `for child_url in list(wiki_links)[:3]:` (lines 94-97):
call `step` (the recursive `parse_article` at the child level) on each URL in
order, threading the mutable `self.visited_urls` through the sequential calls,
appending each non-`None` child; an exception from any child propagates. -/
def runChildren
    (step : String → List String → Except PyErr (Option Article × List String)) :
    List String → List String → Except PyErr (List Article × List String)
  | [], visited => .ok ([], visited)
  | u :: us, visited =>
    match step u visited with
    | .error e => .error e
    | .ok (child, v1) =>
      match runChildren step us v1 with
      | .error e => .error e
      | .ok (cs, v2) =>
        .ok ((match child with | some c => c :: cs | none => cs), v2)

/-- Shallow embedding of `WikipediaParser.parse_article(url, level, max_level)`
(lines 39-99 of `parser.py`).  `fetch` is the composition of `fetch_page` and
BeautifulSoup; `enum` the set-enumeration oracle; `base` is
`self.base_url`; `visited` the current `self.visited_urls`; the result pairs
the returned value (`None` or the article dict) with the updated visited set,
or carries the `AttributeError` raised on a page with no title element or no
content container.  `fuel` bounds the recursion depth; the top-level call
supplies `maxLevel + 1`, which cannot run out because the code only recurses
while `level < max_level`. -/
def parseArticle (fetch : String → Option Page) (enum : List String → List String)
    (base : String) :
    Nat → String → Nat → Nat → List String → Except PyErr (Option Article × List String)
  | 0, _, _, _, visited => .ok (none, visited)
  | fuel + 1, url, level, maxLevel, visited =>
    if level > maxLevel ∨ url ∈ visited then .ok (none, visited)
    else
      let visited1 := url :: visited
      match fetch url with
      | none => .ok (none, visited1)
      | some page =>
        match page.title with
        | none => .error .attributeError
        | some title =>
          match page.content with
          | none => .error .attributeError
          | some contentDiv =>
            let body := String.intercalate "\n"
              (contentDiv.paragraphs.filter pyStripTruthy)
            let content := stripCitations body
            if level < maxLevel then
              let accepted := (contentDiv.links.filter linkFilter).map (urljoin base)
              let wikiLinks := enum accepted
              match runChildren
                  (fun u v => parseArticle fetch enum base fuel u (level + 1) maxLevel v)
                  (wikiLinks.take 3) visited1 with
              | .error e => .error e
              | .ok (children, v2) =>
                .ok (some (.mk url title content level children), v2)
            else
              .ok (some (.mk url title content level []), visited1)

/-- A whole crawl run: `parser = WikipediaParser(); parser.parse_article(url)`
with a fresh empty `visited_urls`, `level = 0` and the given `max_level`
(the endpoint uses the default `max_level = 5`). -/
def crawl (fetch : String → Option Page) (enum : List String → List String)
    (base seed : String) (maxLevel : Nat) :
    Except PyErr (Option Article × List String) :=
  parseArticle fetch enum base (maxLevel + 1) seed 0 maxLevel []

/-- The `/parse/` endpoint's handling of the crawl result (`main.py` lines
70-76): `None` becomes the HTTP 400 error `"Failed to parse article from
Wikipedia"`; a tree is accepted. -/
def parseEndpoint (r : Option Article) : Except String Article :=
  match r with
  | none => .error "Failed to parse article from Wikipedia"
  | some a => .ok a

/-- The returned tree of a run, forgetting the final visited set: `none` when
the run raised, `some r` when it returned `r` (which is itself an
`Option Article`). -/
def resultTree (r : Except PyErr (Option Article × List String)) :
    Option (Option Article) :=
  match r with
  | .ok (a, _) => some a
  | .error _ => none

/-- The URLs of the root's children in the returned tree, `[]` when the run
raised or returned `None`. -/
def resultChildUrls (r : Except PyErr (Option Article × List String)) :
    List String :=
  match r with
  | .ok (some a, _) => a.children.map Article.url
  | _ => []

/-! ### Concrete crawl scenarios

Fetch oracles for the scenarios named in the design document; URLs are under
the parser's default base `https://ru.wikipedia.org`. -/

/-- `WikipediaParser()`'s default `base_url`. -/
def baseUrl : String := "https://ru.wikipedia.org"

/-- Seed article URL used by the concrete scenarios. -/
def seedUrl : String := "https://ru.wikipedia.org/wiki/Seed"

/-- Resolved URL of article A. -/
def wikiA : String := "https://ru.wikipedia.org/wiki/A"

/-- Resolved URL of article B. -/
def wikiB : String := "https://ru.wikipedia.org/wiki/B"

/-- Resolved URL of the unreachable child article. -/
def wikiDead : String := "https://ru.wikipedia.org/wiki/Dead"

/-- Resolved URL of the reachable child article. -/
def wikiLive : String := "https://ru.wikipedia.org/wiki/Live"

/-- A well-formed leaf page: title `t`, one paragraph `t`, no links. -/
def pageLeaf (t : String) : Page := ⟨some t, some ⟨[t], []⟩⟩

/-- Order scenario: the seed's content links to B, then A, then B again
(a duplicate); A and B are well-formed articles with no further links. -/
def fetchOrder : String → Option Page := fun u =>
  if u = seedUrl then
    some ⟨some "Seed", some ⟨["seed text"], ["/wiki/B", "/wiki/A", "/wiki/B"]⟩⟩
  else if u = wikiA then some (pageLeaf "A")
  else if u = wikiB then some (pageLeaf "B")
  else none

/-- The tree the order scenario produces when the set-enumeration oracle is
`List.dedup`: root plus children A then B. -/
def orderRoot : Article :=
  .mk seedUrl "Seed" "seed text" 0
    [.mk wikiA "A" "A" 1 [], .mk wikiB "B" "B" 1 []]

/-- Missing-title scenario: the seed links to B, whose page has no
`firstHeading` element (`soup.find("h1", ...)` returns `None`). -/
def fetchNoTitle : String → Option Page := fun u =>
  if u = seedUrl then some ⟨some "Seed", some ⟨["seed text"], ["/wiki/B"]⟩⟩
  else if u = wikiB then some ⟨none, some ⟨["b text"], []⟩⟩
  else none

/-- Missing-content scenario: the seed links to B, whose page has a title but
no `mw-content-text` container (`soup.find("div", ...)` returns `None`). -/
def fetchNoContent : String → Option Page := fun u =>
  if u = seedUrl then some ⟨some "Seed", some ⟨["seed text"], ["/wiki/B"]⟩⟩
  else if u = wikiB then some ⟨some "B", none⟩
  else none

/-- Graceful-degradation scenario: the seed links to Dead (whose fetch fails at
the transport level, e.g. HTTP 404, so `fetch_page` returns `None`) and to
Live (which fetches fine and has no further links). -/
def fetchDegrade : String → Option Page := fun u =>
  if u = seedUrl then
    some ⟨some "Seed", some ⟨["seed text"], ["/wiki/Dead", "/wiki/Live"]⟩⟩
  else if u = wikiLive then some (pageLeaf "Live")
  else none

/-- The tree the graceful-degradation scenario produces: the root plus exactly
the one successful child. -/
def degradeRoot : Article :=
  .mk seedUrl "Seed" "seed text" 0 [.mk wikiLive "Live" "Live" 1 []]

/-! ## Helper lemmas -/

/-- A list that is a permutation of a two-element list is one of its two
arrangements. -/
theorem perm_pair {α : Type} {l : List α} {x y : α} (h : l.Perm [x, y]) :
    l = [x, y] ∨ l = [y, x] := by
  match l, h.length_eq with
  | [u, v], _ =>
    have hu : u ∈ [x, y] := h.mem_iff.mp (by simp)
    simp at hu
    rcases hu with hu | hu
    · subst hu
      have hv2 : v = y := by
        have := List.perm_singleton.mp h.cons_inv
        simpa using this
      left; rw [hv2]
    · subst hu
      have h2 : [u, v].Perm [u, x] := h.trans (List.Perm.swap u x [])
      have hv2 : v = x := by
        have := List.perm_singleton.mp h2.cons_inv
        simpa using this
      right; rw [hv2]

/-- Stripping the empty character list is a no-op for any fuel. -/
theorem stripGo_nil : ∀ fuel, stripGo fuel [] = [] := by
  intro fuel; cases fuel <;> rfl

/-- When no citation marker occurs anywhere in `l`, one pass of the stripper
returns `l` unchanged, whatever the fuel. -/
theorem stripGo_no_marker :
    ∀ l, hasMarker l = false → ∀ fuel, stripGo fuel l = l := by
  intro l
  induction l with
  | nil => intro h fuel; exact stripGo_nil fuel
  | cons c rest ih =>
    intro h fuel
    cases fuel with
    | zero => rfl
    | succ fuel =>
      simp only [hasMarker, Bool.or_eq_false_iff, Bool.and_eq_false_iff] at h
      obtain ⟨h1, h2⟩ := h
      by_cases hc : c = '['
      · subst hc
        have hhm : headMarker rest = false := by
          rcases h1 with h1 | h1
          · simp at h1
          · exact h1
        cases rest with
        | nil => simp [stripGo]
        | cons d rest2 =>
          simp only [headMarker, Bool.and_eq_false_iff] at hhm
          simp only [stripGo, if_pos rfl]
          by_cases hd : d.isDigit
          · rcases hhm with hhm | hhm
            · rw [hd] at hhm; exact absurd hhm (by simp)
            · cases hdb : digitsThenBracket rest2 with
              | some n => rw [hdb] at hhm; simp at hhm
              | none => simp [hd, hdb, ih h2]
          · rw [if_neg hd]
            simp [ih h2]
      · simp only [stripGo, if_neg hc]
        rw [ih h2 fuel]

/-- Each step of the child loop maps a produced child (when `some`) to a value
satisfying `Q`; then every collected child satisfies `Q`. -/
theorem runChildren_forall
    (step : String → List String → Except PyErr (Option Article × List String))
    (Q : Article → Prop)
    (hstep : ∀ u v r v', step u v = .ok (r, v') → ∀ a, r = some a → Q a) :
    ∀ us v cs v', runChildren step us v = .ok (cs, v') → ∀ c ∈ cs, Q c := by
  intro us
  induction us with
  | nil =>
    intro v cs v' h
    simp [runChildren] at h
    rw [h.1]
    simp
  | cons u us ih =>
    intro v cs v' h
    simp only [runChildren] at h
    split at h
    · exact absurd h (by simp)
    · rename_i p child v1 heq
      split at h
      · exact absurd h (by simp)
      · rename_i q cs2 v2 heq2
        cases child with
        | none =>
          simp only [Except.ok.injEq, Prod.mk.injEq] at h
          obtain ⟨hcs, hv'⟩ := h
          subst hcs
          exact ih v1 cs2 v2 heq2
        | some a =>
          simp only [Except.ok.injEq, Prod.mk.injEq] at h
          obtain ⟨hcs, hv'⟩ := h
          subst hcs
          intro c hc
          rcases List.mem_cons.mp hc with hc | hc
          · rw [hc]; exact hstep u v (some a) v1 heq a rfl
          · exact ih v1 cs2 v2 heq2 c hc

/-- The child loop collects at most one child per URL handed to it. -/
theorem runChildren_length
    (step : String → List String → Except PyErr (Option Article × List String)) :
    ∀ us v cs v', runChildren step us v = .ok (cs, v') → cs.length ≤ us.length := by
  intro us
  induction us with
  | nil =>
    intro v cs v' h
    simp [runChildren] at h
    rw [h.1]; simp
  | cons u us ih =>
    intro v cs v' h
    simp only [runChildren] at h
    split at h
    · exact absurd h (by simp)
    · rename_i p child v1 heq
      split at h
      · exact absurd h (by simp)
      · rename_i q cs2 v2 heq2
        have hlen := ih v1 cs2 v2 heq2
        cases child with
        | none =>
          simp only [Except.ok.injEq, Prod.mk.injEq] at h
          obtain ⟨hcs, hv'⟩ := h
          subst hcs
          simp
          omega
        | some a =>
          simp only [Except.ok.injEq, Prod.mk.injEq] at h
          obtain ⟨hcs, hv'⟩ := h
          subst hcs
          simp
          omega

/-- Visited-set invariant of the child loop: the visited set only grows, and
the URLs of the collected subtrees are fresh (not in the incoming visited set),
pairwise distinct, and all claimed in the outgoing visited set. -/
theorem runChildren_inv
    (step : String → List String → Except PyErr (Option Article × List String))
    (hstep : ∀ u v r v', step u v = .ok (r, v') →
      v ⊆ v' ∧ ∀ a, r = some a →
        (Article.urls a).Nodup ∧ ∀ x ∈ Article.urls a, x ∉ v ∧ x ∈ v') :
    ∀ us v cs v', runChildren step us v = .ok (cs, v') →
      v ⊆ v' ∧ (urlsList cs).Nodup ∧ ∀ x ∈ urlsList cs, x ∉ v ∧ x ∈ v' := by
  intro us
  induction us with
  | nil =>
    intro v cs v' h
    simp [runChildren] at h
    obtain ⟨h1, h2⟩ := h
    subst h1; subst h2
    exact ⟨fun a ha => ha, by simp [urlsList], by simp [urlsList]⟩
  | cons u us ih =>
    intro v cs v' h
    simp only [runChildren] at h
    split at h
    · exact absurd h (by simp)
    · rename_i p child v1 heq
      split at h
      · exact absurd h (by simp)
      · rename_i q cs2 v2 heq2
        obtain ⟨hm1, hfresh⟩ := hstep u v child v1 heq
        obtain ⟨hm2, hnd2, hfc2⟩ := ih v1 cs2 v2 heq2
        cases child with
        | none =>
          simp only [Except.ok.injEq, Prod.mk.injEq] at h
          obtain ⟨hcs, hv'⟩ := h
          subst hcs; subst hv'
          refine ⟨hm1.trans hm2, hnd2, ?_⟩
          intro x hx
          have hx2 := hfc2 x hx
          exact ⟨fun hxv => hx2.1 (hm1 hxv), hx2.2⟩
        | some a =>
          simp only [Except.ok.injEq, Prod.mk.injEq] at h
          obtain ⟨hcs, hv'⟩ := h
          subst hcs; subst hv'
          obtain ⟨hnda, hina⟩ := hfresh a rfl
          refine ⟨hm1.trans hm2, ?_, ?_⟩
          · simp only [urlsList]
            refine List.Nodup.append hnda hnd2 ?_
            intro x hx1 hx2
            exact (hfc2 x hx2).1 ((hina x hx1).2)
          · simp only [urlsList]
            intro x hx
            rcases List.mem_append.mp hx with hx1 | hx2
            · exact ⟨(hina x hx1).1, hm2 (hina x hx1).2⟩
            · exact ⟨fun hxv => (hfc2 x hx2).1 (hm1 hxv), (hfc2 x hx2).2⟩

/-- Visited-set invariant of `parse_article`: the visited set only grows, and
a returned tree has pairwise-distinct URLs, all fresh with respect to the
incoming visited set and all claimed in the outgoing one. -/
theorem parseArticle_inv
    (fetch : String → Option Page) (enum : List String → List String) (base : String) :
    ∀ fuel url level maxLevel v r v',
      parseArticle fetch enum base fuel url level maxLevel v = .ok (r, v') →
      v ⊆ v' ∧ ∀ a, r = some a →
        (Article.urls a).Nodup ∧ ∀ x ∈ Article.urls a, x ∉ v ∧ x ∈ v' := by
  intro fuel
  induction fuel with
  | zero =>
    intro url level maxLevel v r v' h
    simp [parseArticle] at h
    obtain ⟨h1, h2⟩ := h
    subst h1; subst h2
    exact ⟨fun a ha => ha, by simp⟩
  | succ fuel ih =>
    intro url level maxLevel v r v' h
    simp only [parseArticle] at h
    split at h
    · rename_i hguard
      simp only [Except.ok.injEq, Prod.mk.injEq] at h
      obtain ⟨h1, h2⟩ := h
      subst h1; subst h2
      exact ⟨fun a ha => ha, by simp⟩
    · rename_i hguard
      push_neg at hguard
      obtain ⟨hlev, hurl⟩ := hguard
      split at h
      · rename_i hf
        simp only [Except.ok.injEq, Prod.mk.injEq] at h
        obtain ⟨h1, h2⟩ := h
        subst h1; subst h2
        exact ⟨fun a ha => List.mem_cons_of_mem _ ha, by simp⟩
      · rename_i page hf
        split at h
        · exact absurd h (by simp)
        · rename_i title ht
          split at h
          · exact absurd h (by simp)
          · rename_i cd hc
            split at h
            · rename_i hlt
              split at h
              · exact absurd h (by simp)
              · rename_i q children v2 hrc
                simp only [Except.ok.injEq, Prod.mk.injEq] at h
                obtain ⟨h1, h2⟩ := h
                subst h1; subst h2
                have hrinv := runChildren_inv
                  (fun u w => parseArticle fetch enum base fuel u (level + 1) maxLevel w)
                  (fun u w r w' hw => ih u (level + 1) maxLevel w r w' hw)
                  _ _ _ _ hrc
                obtain ⟨hm, hnd, hfc⟩ := hrinv
                have hsub : v ⊆ v2 := fun x hx => hm (List.mem_cons_of_mem _ hx)
                refine ⟨hsub, ?_⟩
                intro a ha
                cases ha
                constructor
                · simp only [Article.urls, List.nodup_cons]
                  constructor
                  · intro hmem
                    exact ((hfc url hmem).1) (List.mem_cons_self _ _)
                  · exact hnd
                · simp only [Article.urls]
                  intro x hx
                  rcases List.mem_cons.mp hx with hx | hx
                  · subst hx
                    exact ⟨hurl, hm (List.mem_cons_self _ _)⟩
                  · have := hfc x hx
                    exact ⟨fun hxv => this.1 (List.mem_cons_of_mem _ hxv), this.2⟩
            · rename_i hlt
              simp only [Except.ok.injEq, Prod.mk.injEq] at h
              obtain ⟨h1, h2⟩ := h
              subst h1; subst h2
              refine ⟨fun x hx => List.mem_cons_of_mem _ hx, ?_⟩
              intro a ha
              cases ha
              constructor
              · simp [Article.urls, urlsList]
              · simp only [Article.urls, urlsList]
                intro x hx
                simp at hx
                subst hx
                exact ⟨hurl, List.mem_cons_self _ _⟩

/-- Depth invariant of `parse_article`: a returned tree's root carries the
level it was called at, every node's level is at most `maxLevel`, a node at
`maxLevel` has no children, and children sit exactly one level below their
parent. -/
theorem parseArticle_level
    (fetch : String → Option Page) (enum : List String → List String) (base : String)
    (maxLevel : Nat) :
    ∀ fuel url level v r v',
      parseArticle fetch enum base fuel url level maxLevel v = .ok (r, v') →
      ∀ a, r = some a →
        a.level = level ∧
        Article.All (fun n => n.level ≤ maxLevel ∧ (n.level = maxLevel → n.children = []) ∧
          ∀ c ∈ n.children, c.level = n.level + 1) a := by
  intro fuel
  induction fuel with
  | zero =>
    intro url level v r v' h
    simp [parseArticle] at h
    rw [← h.1]
    simp
  | succ fuel ih =>
    intro url level v r v' h
    simp only [parseArticle] at h
    split at h
    · simp only [Except.ok.injEq, Prod.mk.injEq] at h
      rw [← h.1]
      simp
    · rename_i hguard
      push_neg at hguard
      obtain ⟨hlev, hurl⟩ := hguard
      split at h
      · simp only [Except.ok.injEq, Prod.mk.injEq] at h
        rw [← h.1]
        simp
      · rename_i page hf
        split at h
        · exact absurd h (by simp)
        · rename_i title ht
          split at h
          · exact absurd h (by simp)
          · rename_i cd hc
            split at h
            · rename_i hlt
              split at h
              · exact absurd h (by simp)
              · rename_i q children v2 hrc
                simp only [Except.ok.injEq, Prod.mk.injEq] at h
                obtain ⟨h1, h2⟩ := h
                subst h1
                intro a ha
                cases ha
                have hq := runChildren_forall
                  (fun u w => parseArticle fetch enum base fuel u (level + 1) maxLevel w)
                  (fun c => c.level = level + 1 ∧
                    Article.All (fun n => n.level ≤ maxLevel ∧
                      (n.level = maxLevel → n.children = []) ∧
                      ∀ d ∈ n.children, d.level = n.level + 1) c)
                  (fun u w r w' hw a ha => ih u (level + 1) w r w' hw a ha)
                  _ _ _ _ hrc
                refine ⟨rfl, ?_⟩
                refine Article.All.node _ ⟨hlev, ?_, ?_⟩ ?_
                · intro hcontra
                  simp only [Article.level] at hcontra
                  omega
                · simp only [Article.children]
                  intro c hcmem
                  exact (hq c hcmem).1
                · simp only [Article.children]
                  intro c hcmem
                  exact (hq c hcmem).2
            · rename_i hlt
              simp only [Except.ok.injEq, Prod.mk.injEq] at h
              obtain ⟨h1, h2⟩ := h
              subst h1
              intro a ha
              cases ha
              refine ⟨rfl, ?_⟩
              refine Article.All.node _ ⟨hlev, fun _ => rfl, ?_⟩ ?_
              · simp [Article.children]
              · simp [Article.children]

/-- Fan-out invariant of `parse_article`: every node of a returned tree has at
most three children (`list(wiki_links)[:3]`). -/
theorem parseArticle_fanout
    (fetch : String → Option Page) (enum : List String → List String) (base : String)
    (maxLevel : Nat) :
    ∀ fuel url level v r v',
      parseArticle fetch enum base fuel url level maxLevel v = .ok (r, v') →
      ∀ a, r = some a →
        Article.All (fun n => n.children.length ≤ 3) a := by
  intro fuel
  induction fuel with
  | zero =>
    intro url level v r v' h
    simp [parseArticle] at h
    rw [← h.1]
    simp
  | succ fuel ih =>
    intro url level v r v' h
    simp only [parseArticle] at h
    split at h
    · simp only [Except.ok.injEq, Prod.mk.injEq] at h
      rw [← h.1]
      simp
    · rename_i hguard
      split at h
      · simp only [Except.ok.injEq, Prod.mk.injEq] at h
        rw [← h.1]
        simp
      · rename_i page hf
        split at h
        · exact absurd h (by simp)
        · rename_i title ht
          split at h
          · exact absurd h (by simp)
          · rename_i cd hc
            split at h
            · rename_i hlt
              split at h
              · exact absurd h (by simp)
              · rename_i q children v2 hrc
                simp only [Except.ok.injEq, Prod.mk.injEq] at h
                obtain ⟨h1, h2⟩ := h
                subst h1
                intro a ha
                cases ha
                have hq := runChildren_forall
                  (fun u w => parseArticle fetch enum base fuel u (level + 1) maxLevel w)
                  (Article.All (fun n => n.children.length ≤ 3))
                  (fun u w r w' hw a ha => ih u (level + 1) w r w' hw a ha)
                  _ _ _ _ hrc
                have hlen := runChildren_length
                  (fun u w => parseArticle fetch enum base fuel u (level + 1) maxLevel w)
                  _ _ _ _ hrc
                refine Article.All.node _ ?_ ?_
                · simp only [Article.children]
                  calc children.length
                      ≤ (List.take 3 (enum ((cd.links.filter linkFilter).map
                          (urljoin base)))).length := hlen
                    _ ≤ 3 := by simp
                · simp only [Article.children]
                  exact hq
            · rename_i hlt
              simp only [Except.ok.injEq, Prod.mk.injEq] at h
              obtain ⟨h1, h2⟩ := h
              subst h1
              intro a ha
              cases ha
              refine Article.All.node _ ?_ ?_
              · simp [Article.children]
              · simp [Article.children]

/-! ## Claim theorems -/

/-- C1 (counterexample): in the order scenario (content links to B, then A,
then B again, fan-out limit 3), the claim predicts child order [B, A] — first
occurrence order.  But `wiki_links` is a Python `set`, whose iteration order is
unspecified; `List.dedup` is one admissible enumeration of that set
(`EnumSpec List.dedup` holds), and under it the children come out [A, B], not
[B, A].  So the accepted-link order is not first-occurrence order. -/
theorem c1_order_counterexample :
    EnumSpec List.dedup
    ∧ resultChildUrls (crawl fetchOrder List.dedup baseUrl seedUrl 1) = [wikiA, wikiB]
    ∧ [wikiA, wikiB] ≠ [wikiB, wikiA] :=
  ⟨fun l => List.Perm.refl l.dedup, by decide, by decide⟩

/-- C1 (amended): in the order scenario the duplicate link to B is collapsed
and the root's children are exactly B and A, each once — but in the set's
unspecified iteration order, not necessarily first-occurrence order: for every
admissible set-enumeration oracle the child URL list is a permutation of
[B, A]. -/
theorem c1_children_perm (enum : List String → List String) (he : EnumSpec enum) :
    (resultChildUrls (crawl fetchOrder enum baseUrl seedUrl 1)).Perm [wikiB, wikiA] := by
  have h0 : [wikiB, wikiA, wikiB].dedup = [wikiA, wikiB] := by decide
  have h1 := he [wikiB, wikiA, wikiB]
  rw [h0] at h1
  have hml : List.map (urljoin "https://ru.wikipedia.org")
      (List.filter linkFilter ["/wiki/B", "/wiki/A", "/wiki/B"]) =
      ["https://ru.wikipedia.org/wiki/B", "https://ru.wikipedia.org/wiki/A",
       "https://ru.wikipedia.org/wiki/B"] := by decide
  have hBA : ([wikiA, wikiB] : List String).Perm [wikiB, wikiA] := List.Perm.swap _ _ _
  rcases perm_pair h1 with h2 | h2 <;> simp only [wikiA, wikiB] at h2
  · have hres : resultChildUrls (crawl fetchOrder enum baseUrl seedUrl 1)
        = [wikiA, wikiB] := by
      simp only [crawl, parseArticle, runChildren, resultChildUrls]
      norm_num [fetchOrder, pageLeaf, seedUrl, wikiA, wikiB, baseUrl, hml, h2, runChildren]
      try decide
    rw [hres]
    exact hBA
  · have hres : resultChildUrls (crawl fetchOrder enum baseUrl seedUrl 1)
        = [wikiB, wikiA] := by
      simp only [crawl, parseArticle, runChildren, resultChildUrls]
      norm_num [fetchOrder, pageLeaf, seedUrl, wikiA, wikiB, baseUrl, hml, h2, runChildren]
      try decide
    rw [hres]

/-- C1 (witness): the amended theorem applied to the concrete admissible
enumeration `List.dedup`. -/
theorem c1_children_perm_witness :
    (resultChildUrls (crawl fetchOrder List.dedup baseUrl seedUrl 1)).Perm
      [wikiB, wikiA] :=
  c1_children_perm List.dedup (fun l => List.Perm.refl l.dedup)

/-- C2 (counterexample): a child page with no title element (and likewise one
with no content container) does not get skipped with the rest of the crawl
completing — the `AttributeError` from `.text`/`.find_all` on `None`
propagates and the whole crawl run fails. -/
theorem c2_missing_title_counterexample :
    crawl fetchNoTitle List.dedup baseUrl seedUrl 1 = .error .attributeError
    ∧ crawl fetchNoContent List.dedup baseUrl seedUrl 1 = .error .attributeError :=
  ⟨rfl, rfl⟩

/-- C2 (amended): a fetched page whose markup lacks the title element or the
content container raises `AttributeError` at that point, and the exception
propagates through the recursion: the whole crawl run fails (as the two
concrete child-page scenarios show), rather than the malformed page being
skipped locally. -/
theorem c2_missing_structure_aborts_run :
    (∀ fetch enum base fuel url level maxLevel v page,
        ¬(level > maxLevel ∨ url ∈ v) → fetch url = some page →
        (page.title = none ∨ page.content = none) →
        parseArticle fetch enum base (fuel + 1) url level maxLevel v =
          .error .attributeError)
    ∧ crawl fetchNoTitle List.dedup baseUrl seedUrl 1 = .error .attributeError
    ∧ crawl fetchNoContent List.dedup baseUrl seedUrl 1 = .error .attributeError := by
  refine ⟨?_, rfl, rfl⟩
  intro fetch enum base fuel url level maxLevel v page hguard hf hbad
  cases ht : page.title with
  | none => simp [parseArticle, if_neg hguard, hf, ht]
  | some t =>
    have hcont : page.content = none := by
      rcases hbad with hb | hb
      · rw [ht] at hb; exact absurd hb (by simp)
      · exact hb
    simp [parseArticle, if_neg hguard, hf, ht, hcont]

/-- C2 (witness): the general part of the amended theorem applied to the
missing-title page of the concrete scenario. -/
theorem c2_missing_structure_witness :
    parseArticle fetchNoTitle List.dedup baseUrl 1 wikiB 0 1 [] =
      .error .attributeError :=
  c2_missing_structure_aborts_run.1 fetchNoTitle List.dedup baseUrl 0 wikiB 0 1 []
    ⟨none, some ⟨["b text"], []⟩⟩ (by decide) (by decide) (Or.inl rfl)

/-- C3 (counterexample): the footnote strip is not idempotent.  On
`"[1[2]3]"` one pass removes `[2]`, leaving `"[13]"`, which is itself a
marker; a second pass removes it, so `strip (strip s) ≠ strip s`. -/
theorem c3_strip_not_idempotent :
    stripCitations "[1[2]3]" = "[13]"
    ∧ stripCitations (stripCitations "[1[2]3]") = ""
    ∧ stripCitations (stripCitations "[1[2]3]") ≠ stripCitations "[1[2]3]" :=
  ⟨rfl, rfl, by decide⟩

/-- C3 (amended): one stripping pass can manufacture a new marker out of the
surrounding text, so idempotence only holds when the first pass left no
marker behind: if the stripped text contains no `[digits]` marker, stripping
it again is a no-op. -/
theorem c3_strip_idempotent_no_marker_left (s : String)
    (h : hasMarker (stripCitations s).data = false) :
    stripCitations (stripCitations s) = stripCitations s := by
  have hfix := stripGo_no_marker (stripCitations s).data h
    (stripCitations s).data.length
  show String.mk (stripGo (stripCitations s).data.length (stripCitations s).data)
      = stripCitations s
  rw [hfix]

/-- C3 (witness): the amended theorem applied to `"abc[12]def"`, whose
stripped form `"abcdef"` has no marker left. -/
theorem c3_strip_idempotent_witness :
    stripCitations (stripCitations "abc[12]def") = stripCitations "abc[12]def" :=
  c3_strip_idempotent_no_marker_left "abc[12]def" (by decide)

/-- C4: in any crawl run that returns a tree, no two nodes share a URL — the
run-scoped visited set is checked and claimed before fetching, so the URL
list of the whole tree has no repeats, whatever cycles or diamonds the link
graph contains. -/
theorem c4_no_duplicate_urls
    (fetch : String → Option Page) (enum : List String → List String)
    (base seed : String) (maxLevel : Nat) (a : Article) (v' : List String)
    (h : crawl fetch enum base seed maxLevel = .ok (some a, v')) :
    (Article.urls a).Nodup :=
  ((parseArticle_inv fetch enum base (maxLevel + 1) seed 0 maxLevel []
    (some a) v' h).2 a rfl).1

/-- C4 (witness): the order scenario's tree (seed with children A and B) has
pairwise-distinct URLs. -/
theorem c4_no_duplicate_urls_witness : (Article.urls orderRoot).Nodup :=
  c4_no_duplicate_urls fetchOrder List.dedup baseUrl seedUrl 1 orderRoot
    [wikiB, wikiA, seedUrl] rfl

/-- C5: in any crawl run with depth budget `d`, the returned tree's root is at
level 0, every node's level is at most `d`, a node at level `d` has no
children (expansion is not even attempted there), and children sit exactly one
level below their parent. -/
theorem c5_depth_bound
    (fetch : String → Option Page) (enum : List String → List String)
    (base seed : String) (d : Nat) (a : Article) (v' : List String)
    (h : crawl fetch enum base seed d = .ok (some a, v')) :
    a.level = 0 ∧
    Article.All (fun n => n.level ≤ d ∧ (n.level = d → n.children = []) ∧
      ∀ c ∈ n.children, c.level = n.level + 1) a :=
  parseArticle_level fetch enum base d (d + 1) seed 0 [] (some a) v' h a rfl

/-- C5 (witness): the depth bound instantiated on the order scenario with
`d = 1`. -/
theorem c5_depth_bound_witness :
    orderRoot.level = 0 ∧
    Article.All (fun n => n.level ≤ 1 ∧ (n.level = 1 → n.children = []) ∧
      ∀ c ∈ n.children, c.level = n.level + 1) orderRoot :=
  c5_depth_bound fetchOrder List.dedup baseUrl seedUrl 1 orderRoot
    [wikiB, wikiA, seedUrl] rfl

/-- C6: in any crawl run that returns a tree, every node has at most 3
children — only the first `3` enumerated accepted links are expanded
(`list(wiki_links)[:3]`). -/
theorem c6_fanout_bound
    (fetch : String → Option Page) (enum : List String → List String)
    (base seed : String) (maxLevel : Nat) (a : Article) (v' : List String)
    (h : crawl fetch enum base seed maxLevel = .ok (some a, v')) :
    Article.All (fun n => n.children.length ≤ 3) a :=
  parseArticle_fanout fetch enum base maxLevel (maxLevel + 1) seed 0 []
    (some a) v' h a rfl

/-- C6 (witness): the fan-out bound instantiated on the order scenario. -/
theorem c6_fanout_bound_witness :
    Article.All (fun n => n.children.length ≤ 3) orderRoot :=
  c6_fanout_bound fetchOrder List.dedup baseUrl seedUrl 1 orderRoot
    [wikiB, wikiA, seedUrl] rfl

/-- C7: the link filter accepts exactly the hrefs that start with `/wiki/`
and contain no `:`; the design document's concrete cases behave as stated,
and an accepted relative href resolves against the base URL. -/
theorem c7_link_filter_cases :
    (∀ href, linkFilter href = true ↔
      (strStartsWith href "/wiki/" = true ∧ strContainsChar href ':' = false))
    ∧ linkFilter "/wiki/Python_(programming_language)" = true
    ∧ linkFilter "/wiki/Category:Programming" = false
    ∧ linkFilter "/wiki/Talk:Python" = false
    ∧ linkFilter "//other.site/wiki/X" = false
    ∧ linkFilter "/w/index.php?title=X" = false
    ∧ urljoin "https://example.org" "/wiki/Foo" = "https://example.org/wiki/Foo" := by
  refine ⟨?_, by decide, by decide, by decide, by decide, by decide, by decide⟩
  intro href
  simp [linkFilter, Bool.and_eq_true, Bool.not_eq_true']

/-- C7 (witness): the characterization applied to the concrete href
`/wiki/Foo`. -/
theorem c7_link_filter_witness : linkFilter "/wiki/Foo" = true :=
  (c7_link_filter_cases.1 "/wiki/Foo").mpr ⟨by decide, by decide⟩

/-- C8: graceful degradation — in the scenario where the seed's two
discovered children are Dead (transport failure, `fetch_page` returns `None`)
and Live (fetch succeeds), the run returns a tree containing the root plus
exactly the one successful child, for every admissible set-enumeration order;
the failed branch is silently absent and the run as a whole succeeds. -/
theorem c8_graceful_degradation (enum : List String → List String)
    (he : EnumSpec enum) :
    resultTree (crawl fetchDegrade enum baseUrl seedUrl 1) = some (some degradeRoot) := by
  have h0 : [wikiDead, wikiLive].dedup = [wikiDead, wikiLive] := by decide
  have h1 := he [wikiDead, wikiLive]
  rw [h0] at h1
  have hml : List.map (urljoin "https://ru.wikipedia.org")
      (List.filter linkFilter ["/wiki/Dead", "/wiki/Live"]) =
      ["https://ru.wikipedia.org/wiki/Dead", "https://ru.wikipedia.org/wiki/Live"] := by
    decide
  rcases perm_pair h1 with h2 | h2 <;> simp only [wikiDead, wikiLive] at h2
  · simp only [crawl, parseArticle, runChildren, resultTree]
    norm_num [fetchDegrade, pageLeaf, seedUrl, wikiDead, wikiLive, baseUrl, hml, h2,
      runChildren, degradeRoot]
    try rfl
  · simp only [crawl, parseArticle, runChildren, resultTree]
    norm_num [fetchDegrade, pageLeaf, seedUrl, wikiDead, wikiLive, baseUrl, hml, h2,
      runChildren, degradeRoot]
    try rfl

/-- C8 (witness): the graceful-degradation theorem applied to the concrete
admissible enumeration `List.dedup`. -/
theorem c8_graceful_degradation_witness :
    resultTree (crawl fetchDegrade List.dedup baseUrl seedUrl 1)
      = some (some degradeRoot) :=
  c8_graceful_degradation List.dedup (fun l => List.Perm.refl l.dedup)

/-- C9: when the seed fetch fails, the crawl returns `None` (with only the
seed claimed in the visited set) — a value distinct from any tree, including
one with zero children — and the endpoint surfaces exactly this `None` as the
"Failed to parse article from Wikipedia" error, while any returned tree is
passed through. -/
theorem c9_seed_failure_empty_result :
    (∀ (fetch : String → Option Page) (enum : List String → List String)
        (base seed : String) (maxLevel : Nat), fetch seed = none →
      crawl fetch enum base seed maxLevel = .ok (none, [seed]))
    ∧ (∀ a : Article, some a ≠ (none : Option Article))
    ∧ parseEndpoint none = .error "Failed to parse article from Wikipedia"
    ∧ (∀ a : Article, parseEndpoint (some a) = .ok a) := by
  refine ⟨?_, ?_, rfl, fun a => rfl⟩
  · intro fetch enum base seed maxLevel hf
    simp [crawl, parseArticle, hf]
  · intro a h
    exact Option.noConfusion h

/-- C9 (witness): the seed-failure part applied to an oracle that fails every
fetch. -/
theorem c9_seed_failure_witness :
    crawl (fun _ => none) List.dedup baseUrl seedUrl 5 = .ok (none, [seedUrl]) :=
  c9_seed_failure_empty_result.1 (fun _ => none) List.dedup baseUrl seedUrl 5 rfl

/-- C10: the visited set is never cleared and only grows.  A `parse_article`
call on a URL already in `self.visited_urls` returns `None` and leaves the set
unchanged; every call's outgoing visited set contains the incoming one; and a
call on a fresh URL within the depth budget claims that URL in the outgoing
set — so a later call with the same seed on the same instance returns
nothing. -/
theorem c10_visited_persists :
    (∀ (fetch : String → Option Page) (enum : List String → List String)
        (base : String) (fuel : Nat) (u : String) (level maxLevel : Nat)
        (v : List String), u ∈ v →
      parseArticle fetch enum base fuel u level maxLevel v = .ok (none, v))
    ∧ (∀ (fetch : String → Option Page) (enum : List String → List String)
        (base : String) (fuel : Nat) (u : String) (level maxLevel : Nat)
        (v : List String) (r : Option Article) (v' : List String),
      parseArticle fetch enum base fuel u level maxLevel v = .ok (r, v') → v ⊆ v')
    ∧ (∀ (fetch : String → Option Page) (enum : List String → List String)
        (base : String) (fuel : Nat) (u : String) (level maxLevel : Nat)
        (v : List String) (r : Option Article) (v' : List String),
      parseArticle fetch enum base (fuel + 1) u level maxLevel v = .ok (r, v') →
      level ≤ maxLevel → u ∈ v') := by
  refine ⟨?_, ?_, ?_⟩
  · intro fetch enum base fuel u level maxLevel v hu
    cases fuel with
    | zero => rfl
    | succ fuel =>
      simp only [parseArticle]
      rw [if_pos (Or.inr hu)]
  · intro fetch enum base fuel u level maxLevel v r v' h
    exact (parseArticle_inv fetch enum base fuel u level maxLevel v r v' h).1
  · intro fetch enum base fuel u level maxLevel v r v' h hle
    simp only [parseArticle] at h
    split at h
    · rename_i hguard
      rcases hguard with hg | hg
      · omega
      · simp only [Except.ok.injEq, Prod.mk.injEq] at h
        rw [← h.2]
        exact hg
    · split at h
      · simp only [Except.ok.injEq, Prod.mk.injEq] at h
        rw [← h.2]
        exact List.mem_cons_self _ _
      · rename_i page hf
        split at h
        · exact absurd h (by simp)
        · rename_i title ht
          split at h
          · exact absurd h (by simp)
          · rename_i cd hc
            split at h
            · split at h
              · exact absurd h (by simp)
              · rename_i q children v2 hrc
                simp only [Except.ok.injEq, Prod.mk.injEq] at h
                rw [← h.2]
                have hm := (runChildren_inv
                  (fun x w => parseArticle fetch enum base fuel x (level + 1) maxLevel w)
                  (fun x w r w' hw =>
                    parseArticle_inv fetch enum base fuel x (level + 1) maxLevel w r w' hw)
                  _ _ _ _ hrc).1
                exact hm (List.mem_cons_self _ _)
            · simp only [Except.ok.injEq, Prod.mk.injEq] at h
              rw [← h.2]
              exact List.mem_cons_self _ _

/-- C10 (witness): on the order scenario's parser state, a repeated call with
the already-claimed seed returns `None` with the set unchanged; the
completed run's visited set contains the initial one; and the run claimed the
seed. -/
theorem c10_visited_persists_witness :
    parseArticle fetchOrder List.dedup baseUrl 2 seedUrl 0 1 [seedUrl]
      = .ok (none, [seedUrl])
    ∧ ([] : List String) ⊆ [wikiB, wikiA, seedUrl]
    ∧ seedUrl ∈ [wikiB, wikiA, seedUrl] :=
  ⟨c10_visited_persists.1 fetchOrder List.dedup baseUrl 2 seedUrl 0 1 [seedUrl]
      (by decide),
   c10_visited_persists.2.1 fetchOrder List.dedup baseUrl 2 seedUrl 0 1 []
      (some orderRoot) [wikiB, wikiA, seedUrl] rfl,
   c10_visited_persists.2.2 fetchOrder List.dedup baseUrl 1 seedUrl 0 1 []
      (some orderRoot) [wikiB, wikiA, seedUrl] rfl (by decide)⟩

end WikiParser
